import Mathlib

/-!
Verification of the LLMNR responder core (`src/llmnr.c` of llmnrd).

The C code is shallowly embedded: datagrams and the fixed receive buffer are
lists of byte values (`Nat`, each < 256 where the code guarantees it), the
packet writer is list concatenation, and machine arithmetic that can wrap
(the `size_t` subtraction guarding the QTYPE/QCLASS parse) is modelled with
an explicit modulus 2^64.  Reads through C pointers are total here
(`List.getD` with default 0); all offsets the claims exercise stay inside the
modelled 2048-byte receive buffer, mirroring the C stack buffer `pktbuf`.
-/

/-- Byte read at offset `i` of a buffer (C pointer indexing `p[i]`). -/
def byteAt (l : List Nat) (i : Nat) : Nat := l.getD i 0

/-- Constants from `llmnr-packet.h` (header not shipped under `src/`).
Modelled from the spec: §6 gives the flag bit layout (bit 15 = QR,
bits 11-14 = opcode, bit 9 = TC), QTYPE 1 = A, 255 = ANY, QCLASS/CLASS 1 = IN,
label max length 63, and a fixed default TTL constant. -/
def LLMNR_LABEL_MAX_SIZE : Nat := 63

def LLMNR_F_QR : Nat := 0x8000

def LLMNR_F_OPCODE : Nat := 0x7800

def LLMNR_F_TC : Nat := 0x0200

def LLMNR_QTYPE_A : Nat := 1

def LLMNR_QTYPE_ANY : Nat := 255

def LLMNR_QCLASS_IN : Nat := 1

def LLMNR_TYPE_A : Nat := 1

def LLMNR_CLASS_IN : Nat := 1

def LLMNR_TTL_DEFAULT : Nat := 30

def AF_UNSPEC : Nat := 0

def AF_INET : Nat := 2

/-- 16-bit big-endian (network order) value of two wire bytes (`ntohs`). -/
def be16 (hi lo : Nat) : Nat := 256 * hi + lo

/-- The two wire bytes of a 16-bit value emitted in network order
(`htons` followed by a raw 16-bit store, or `pkt_put_u16` of `ntohs`). -/
def be16bytes (v : Nat) : List Nat := [v / 256 % 256, v % 256]

/-- The four wire bytes of a 32-bit value emitted in network order. -/
def be32bytes (v : Nat) : List Nat :=
  [v / 16777216 % 256, v / 65536 % 256, v / 256 % 256, v % 256]

/-- Wrapping `size_t` subtraction (operands below 2^64, result mod 2^64). -/
def usub64 (a b : Nat) : Nat :=
  (a + 18446744073709551616 - b) % 18446744073709551616

/-- One entry of the `struct sockaddr_storage addrs[16]` array filled by
`iface_addr_lookup`: an address family tag plus the raw address bytes. -/
structure SockAddr where
  family : Nat
  addr : List Nat
deriving DecidableEq

/-- `llmnr_set_hostname` (`src/llmnr.c:44-49`): the 65-byte static array
`llmnr_hostname` after initialisation.  Byte 0 is `strlen(hostname)`
narrowed to a byte, bytes 1..63 are `strncpy` of at most 63 name bytes
(zero-padded when the name is shorter), byte 64 is forced to 0. -/
def llmnr_set_hostname (name : List Nat) : List Nat :=
  name.length % 256 ::
    (name.take LLMNR_LABEL_MAX_SIZE ++
      List.replicate (LLMNR_LABEL_MAX_SIZE - name.length) 0) ++ [0]

/-- ASCII `tolower` on a byte value (C locale). -/
def lowerByte (c : Nat) : Nat := if 65 ≤ c ∧ c ≤ 90 then c + 32 else c

/-- `strncasecmp(s1 + i, s2 + j, n) == 0`: byte-wise ASCII case-insensitive
comparison of at most `n` bytes, stopping early at a NUL byte. -/
def strncasecmpEq (s1 : List Nat) (i : Nat) (s2 : List Nat) (j n : Nat) : Bool :=
  match n with
  | 0 => true
  | Nat.succ m =>
    if lowerByte (byteAt s1 i) ≠ lowerByte (byteAt s2 j) then false
    else if byteAt s1 i = 0 then true
    else strncasecmpEq s1 (i + 1) s2 (j + 1) m

/-- `llmnr_name_matches` (`src/llmnr.c:56-68`), over the stored hostname
array and the query section (the received buffer from offset 12 on). -/
def llmnr_name_matches (host query : List Nat) : Bool :=
  let n := byteAt host 0
  if byteAt query 0 ≠ n then false
  else if byteAt query (1 + n) ≠ 0 then false
  else strncasecmpEq query 1 host 1 n

/-- Modelled from the spec: `iface_addr_lookup` lives in `iface.c`, which is
not under `src/`.  Per §6 it returns up to `cap` locally configured addresses
of the arrival interface filtered to the requested family, and per §1/§4.5
the system is IPv4-only, so both the AF_INET and the unconstrained AF_UNSPEC
request yield the interface's IPv4 addresses (4 raw bytes each), capped. -/
def iface_addr_lookup (family : Nat) (ifaceV4 : List (List Nat))
    (cap : Nat) : List SockAddr :=
  (ifaceV4.take cap).map (fun a => { family := AF_INET, addr := a })

/-- One iteration of the answer-record loop (`src/llmnr.c:138-169`): the
bytes appended for address `a` at loop index `i` (nothing for a non-IPv4
family, which the loop skips with `continue`). -/
def rrBytes (host : List Nat) (query_len i : Nat) (a : SockAddr) : List Nat :=
  if a.family = AF_INET then
    (if i = 0 then host.take (byteAt host 0 + 2)
     else be16bytes (0xC000 ||| (12 + query_len)))
      ++ be16bytes LLMNR_TYPE_A ++ be16bytes LLMNR_CLASS_IN
      ++ be32bytes LLMNR_TTL_DEFAULT ++ be16bytes a.addr.length ++ a.addr
  else []

/-- The answer-record loop of `llmnr_respond`, starting at loop index `i`. -/
def rrsFrom (host : List Nat) (query_len i : Nat) : List SockAddr → List Nat
  | [] => []
  | a :: rest => rrBytes host query_len i a ++ rrsFrom host query_len (i + 1) rest

/-- `llmnr_respond` (`src/llmnr.c:70-175`).  `hdr` is the received buffer
(the C `hdr` pointer aliases its start), `query` the received buffer from
offset 12 on (the C `query` pointer), `query_len = len - 12`.  Returns the
datagram handed to `sendto`, or `none` when the function returns early.
The guard on line 89 is the wrapping `size_t` computation
`query_len - name_len - 2`. -/
def llmnr_respond (host hdr query : List Nat) (query_len : Nat)
    (ifaceV4 : List (List Nat)) : Option (List Nat) :=
  let name_len := byteAt query 0
  if usub64 (usub64 query_len name_len) 2 < 4 then none
  else
    let qtype := be16 (byteAt query (name_len + 2)) (byteAt query (name_len + 3))
    let qclass := be16 (byteAt query (name_len + 4)) (byteAt query (name_len + 5))
    if qclass ≠ LLMNR_QCLASS_IN then none
    else
      let go := fun (family : Nat) =>
        let addrs := iface_addr_lookup family ifaceV4 16
        if addrs.length = 0 then none
        else
          some ([byteAt hdr 0, byteAt hdr 1, 0x80, 0x00, byteAt hdr 4, byteAt hdr 5]
            ++ be16bytes addrs.length ++ [0, 0, 0, 0]
            ++ query.take query_len ++ rrsFrom host query_len 0 addrs)
      if qtype = LLMNR_QTYPE_A then go AF_INET
      else if qtype = LLMNR_QTYPE_ANY then go AF_UNSPEC
      else none

/-- `llmnr_packet_process` (`src/llmnr.c:177-209`).  `buf` is the receive
buffer `pktbuf` (2048 bytes in the C code, of which the first `len` are the
received payload); the result is the emitted response datagram, `none` when
the datagram is dropped. -/
def llmnr_packet_process (host buf : List Nat) (len : Nat)
    (ifaceV4 : List (List Nat)) : Option (List Nat) :=
  if len < 12 then none
  else
    let flags := be16 (byteAt buf 2) (byteAt buf 3)
    let qdcount := be16 (byteAt buf 4) (byteAt buf 5)
    let ancount := be16 (byteAt buf 6) (byteAt buf 7)
    let nscount := be16 (byteAt buf 8) (byteAt buf 9)
    if flags &&& (LLMNR_F_QR ||| LLMNR_F_OPCODE ||| LLMNR_F_TC) ≠ 0 ∨
        qdcount ≠ 1 ∨ ancount ≠ 0 ∨ nscount ≠ 0 then none
    else
      let query := buf.drop 12
      let query_len := len - 12
      let name_len := byteAt query 0
      if name_len = 0 ∨ name_len ≥ query_len ∨ name_len > LLMNR_LABEL_MAX_SIZE ∨
          byteAt query (1 + name_len) ≠ 0 then none
      else if llmnr_name_matches host query then
        llmnr_respond host buf query query_len ifaceV4
      else none

/-- The `addrs` array contents after `iface_addr_lookup(ifindex, family, addrs, 16)`:
the interface's IPv4 addresses, capped at 16 (independent of the family filter). -/
def addrsOf (ifc : List (List Nat)) : List SockAddr :=
  (ifc.take 16).map (fun a => { family := AF_INET, addr := a })

/-- The datagram `llmnr_respond` hands to `sendto` on its success path. -/
def respBytes (host buf : List Nat) (len : Nat) (ifc : List (List Nat)) : List Nat :=
  [byteAt buf 0, byteAt buf 1, 0x80, 0x00, byteAt buf 4, byteAt buf 5]
    ++ be16bytes (addrsOf ifc).length ++ [0, 0, 0, 0]
    ++ (buf.drop 12).take (len - 12) ++ rrsFrom host (len - 12) 0 (addrsOf ifc)

/-- Number of resource records the answer loop actually appends: one per
address whose family is AF_INET (the loop `continue`s past any other). -/
def rrCount (addrs : List SockAddr) : Nat :=
  (addrs.filter (fun a => a.family == AF_INET)).length

/-- The conditions under which `llmnr_packet_process` reaches the success path
of `llmnr_respond` with QTYPE=ANY, QCLASS=IN: they bundle exactly the checks
of `src/llmnr.c:187-208` and `src/llmnr.c:89-110` (the payload fits the
2048-byte receive buffer, the header flags/counts pass, the QNAME is framed
with at least QTYPE/QCLASS following, the name matches). -/
def validMatchingAnyQuery (host buf : List Nat) (len : Nat) : Prop :=
  12 ≤ len ∧ len ≤ 2048 ∧
  be16 (byteAt buf 2) (byteAt buf 3) &&& (LLMNR_F_QR ||| LLMNR_F_OPCODE ||| LLMNR_F_TC) = 0 ∧
  be16 (byteAt buf 4) (byteAt buf 5) = 1 ∧
  be16 (byteAt buf 6) (byteAt buf 7) = 0 ∧
  be16 (byteAt buf 8) (byteAt buf 9) = 0 ∧
  byteAt buf 12 ≠ 0 ∧ byteAt buf 12 ≤ 63 ∧
  byteAt buf 12 + 6 ≤ len - 12 ∧
  byteAt buf (12 + (1 + byteAt buf 12)) = 0 ∧
  llmnr_name_matches host (buf.drop 12) = true ∧
  be16 (byteAt buf (12 + (byteAt buf 12 + 2))) (byteAt buf (12 + (byteAt buf 12 + 3)))
    = LLMNR_QTYPE_ANY ∧
  be16 (byteAt buf (12 + (byteAt buf 12 + 4))) (byteAt buf (12 + (byteAt buf 12 + 5)))
    = LLMNR_QCLASS_IN

instance (host buf : List Nat) (len : Nat) :
    Decidable (validMatchingAnyQuery host buf len) := by
  unfold validMatchingAnyQuery
  exact inferInstance

/-- Hostname "myhost" as bytes. -/
def myhostBytes : List Nat := [109, 121, 104, 111, 115, 116]

/-- The stored hostname array for the configured name "myhost". -/
def hostMyhost : List Nat := llmnr_set_hostname myhostBytes

/-- Receive buffer holding a minimal valid query: id 0x1234, flags 0,
QDCOUNT 1, QNAME `0x06 "MYHOST" 0x00`, QTYPE 255 (ANY), QCLASS 1 (IN). -/
def bufQueryUpper : List Nat :=
  [18, 52, 0, 0, 0, 1, 0, 0, 0, 0, 0, 0] ++
    [6, 77, 89, 72, 79, 83, 84, 0, 0, 255, 0, 1]

/-- Same query but with flags byte 2 = 0x80, i.e. the QR bit set. -/
def bufQueryQR : List Nat :=
  [18, 52, 128, 0, 0, 1, 0, 0, 0, 0, 0, 0] ++
    [6, 77, 89, 72, 79, 83, 84, 0, 0, 255, 0, 1]

/-- Receive buffer holding a valid matching query (lowercase "myhost")
followed by one trailing padding byte 99 beyond QCLASS; payload length 25. -/
def bufQueryPadded : List Nat :=
  [18, 52, 0, 0, 0, 1, 0, 0, 0, 0, 0, 0] ++
    [6, 109, 121, 104, 111, 115, 116, 0, 0, 255, 0, 1, 99]

/-- A 19-byte payload whose last byte is the QNAME's final name byte: the
12-byte header plus `0x06 "myhost"` with no terminating zero octet inside
the payload. -/
def payloadEndsAtName : List Nat :=
  [0, 0, 0, 0, 0, 1, 0, 0, 0, 0, 0, 0] ++ [6, 109, 121, 104, 111, 115, 116]

/-- Receive buffer: the 19-byte payload above, then stale buffer bytes that
happen to look like a terminating zero, QTYPE=ANY and QCLASS=IN. -/
def bufStaleZero : List Nat := payloadEndsAtName ++ [0, 0, 255, 0, 1]

/-- Receive buffer: the same 19-byte payload, then stale bytes 0xFF. -/
def bufStaleFF : List Nat := payloadEndsAtName ++ [255, 255, 255, 255, 255]

/-- An interface with a single IPv4 address 192.0.2.5. -/
def oneAddr : List (List Nat) := [[192, 0, 2, 5]]

/-- An interface with two IPv4 addresses. -/
def twoAddrs : List (List Nat) := [[192, 0, 2, 5], [10, 0, 0, 1]]

lemma iface_addr_lookup_eq (f : Nat) (ifc : List (List Nat)) :
    iface_addr_lookup f ifc 16 = addrsOf ifc := rfl

lemma byteAt_drop (l : List Nat) (n i : Nat) :
    byteAt (l.drop n) i = byteAt l (n + i) := by
  simp [byteAt, List.getElem?_drop]

lemma addrsOf_length (ifc : List (List Nat)) :
    (addrsOf ifc).length = min 16 ifc.length := by
  simp [addrsOf]

lemma rrCount_addrsOf (ifc : List (List Nat)) :
    rrCount (addrsOf ifc) = (addrsOf ifc).length := by
  unfold rrCount addrsOf
  induction ifc.take 16 with
  | nil => rfl
  | cons a l ih => simpa [List.filter] using ih

/-- Inversion of the success path: whatever datagram `llmnr_packet_process`
emits, every validation check passed, the name matched, at least one address
was found, and the datagram is exactly `respBytes`. -/
lemma process_some_inv {host buf : List Nat} {len : Nat} {ifc : List (List Nat)}
    {resp : List Nat}
    (h : llmnr_packet_process host buf len ifc = some resp) :
    12 ≤ len ∧
    be16 (byteAt buf 2) (byteAt buf 3) &&& (LLMNR_F_QR ||| LLMNR_F_OPCODE ||| LLMNR_F_TC) = 0 ∧
    be16 (byteAt buf 4) (byteAt buf 5) = 1 ∧
    be16 (byteAt buf 6) (byteAt buf 7) = 0 ∧
    be16 (byteAt buf 8) (byteAt buf 9) = 0 ∧
    byteAt buf 12 ≠ 0 ∧ byteAt buf 12 < len - 12 ∧ byteAt buf 12 ≤ 63 ∧
    byteAt buf (12 + (1 + byteAt buf 12)) = 0 ∧
    llmnr_name_matches host (buf.drop 12) = true ∧
    (addrsOf ifc).length ≠ 0 ∧
    resp = respBytes host buf len ifc := by
  simp only [llmnr_packet_process, byteAt_drop, Nat.add_zero, LLMNR_LABEL_MAX_SIZE] at h
  split at h
  · exact absurd h (by simp)
  · split at h
    · exact absurd h (by simp)
    · split at h
      · exact absurd h (by simp)
      · split at h
        · rename_i hlen hflags hname hmatch
          simp only [llmnr_respond, byteAt_drop, Nat.add_zero, LLMNR_QCLASS_IN,
            LLMNR_QTYPE_A, LLMNR_QTYPE_ANY] at h
          split at h
          · exact absurd h (by simp)
          · split at h
            · exact absurd h (by simp)
            · push_neg at hflags hname
              obtain ⟨hf, hqd, han, hns⟩ := hflags
              obtain ⟨hn0, hnlt, hn63, hterm⟩ := hname
              refine ⟨by omega, hf, hqd, han, hns, hn0, by omega, by omega, hterm, hmatch, ?_⟩
              split at h
              · rw [iface_addr_lookup_eq] at h
                split at h
                · exact absurd h (by simp)
                · rename_i hne
                  exact ⟨hne, (Option.some.inj h).symm⟩
              · split at h
                · rw [iface_addr_lookup_eq] at h
                  split at h
                  · exact absurd h (by simp)
                  · rename_i hne
                    exact ⟨hne, (Option.some.inj h).symm⟩
                · exact absurd h (by simp)
        · exact absurd h (by simp)

/-- On a valid matching ANY/IN query, `llmnr_packet_process` emits `respBytes`
exactly when the address lookup found at least one address. -/
lemma process_of_validAny {host buf : List Nat} {len : Nat}
    (h : validMatchingAnyQuery host buf len) (ifc : List (List Nat)) :
    llmnr_packet_process host buf len ifc =
      if (addrsOf ifc).length = 0 then none
      else some (respBytes host buf len ifc) := by
  obtain ⟨h12, h2048, hflags, hqd, han, hns, hn0, hn63, hrem, hterm, hmatch, hqtype, hqclass⟩ := h
  simp only [llmnr_packet_process, byteAt_drop, Nat.add_zero, LLMNR_LABEL_MAX_SIZE]
  rw [if_neg (by omega)]
  rw [if_neg (by
    push_neg
    exact ⟨hflags, hqd, han, hns⟩)]
  rw [if_neg (by
    push_neg
    exact ⟨hn0, by omega, by omega, hterm⟩)]
  rw [if_pos hmatch]
  simp only [llmnr_respond, byteAt_drop, Nat.add_zero]
  rw [if_neg (by
    simp only [usub64]
    omega)]
  rw [if_neg (fun hc => hc hqclass)]
  rw [if_neg (by
    rw [hqtype]
    simp [LLMNR_QTYPE_ANY, LLMNR_QTYPE_A])]
  rw [if_pos hqtype, iface_addr_lookup_eq]
  rfl

lemma set_hostname_length (name : List Nat) (h63 : name.length ≤ 63) :
    (llmnr_set_hostname name).length = 65 := by
  simp [llmnr_set_hostname, LLMNR_LABEL_MAX_SIZE]
  omega

lemma set_hostname_byte0 (name : List Nat) (h63 : name.length ≤ 63) :
    byteAt (llmnr_set_hostname name) 0 = name.length := by
  simp only [llmnr_set_hostname, LLMNR_LABEL_MAX_SIZE, List.cons_append, byteAt,
    List.getD_cons_zero]
  omega

lemma set_hostname_byte_name (name : List Nat) (h63 : name.length ≤ 63)
    (j : Nat) (hj : j < name.length) :
    byteAt (llmnr_set_hostname name) (1 + j) = byteAt name j := by
  simp only [llmnr_set_hostname, LLMNR_LABEL_MAX_SIZE, List.cons_append, byteAt]
  rw [Nat.add_comm 1 j, List.getD_cons_succ, List.append_assoc]
  rw [List.getD_append _ _ _ _ (by rw [List.length_take]; omega)]
  simp only [List.getD_eq_getElem?_getD]
  rw [List.getElem?_take_of_lt (by omega)]

lemma set_hostname_byte_term (name : List Nat) (h63 : name.length ≤ 63) :
    byteAt (llmnr_set_hostname name) (1 + name.length) = 0 := by
  simp only [llmnr_set_hostname, LLMNR_LABEL_MAX_SIZE, List.cons_append, byteAt]
  rw [Nat.add_comm 1 name.length, List.getD_cons_succ, List.append_assoc]
  rw [List.getD_append_right _ _ _ _ (by rw [List.length_take]; omega)]
  rw [List.length_take]
  rcases Nat.lt_or_ge name.length 63 with hlt | hge
  · rw [List.getD_append _ _ _ _ (by simp; omega)]
    simp only [List.getD_eq_getElem?_getD]
    rw [List.getElem?_replicate_of_lt (by omega)]
    rfl
  · have he : name.length = 63 := by omega
    rw [List.getD_append_right _ _ _ _ (by simp; omega)]
    simp [he]

/-- Claim C2, counterexample: for the 64-byte input name `"aaaa…a"`,
`llmnr_set_hostname` stores length octet 64, which exceeds the DNS label
limit 63 — `strncpy` truncates the copied name bytes at 63, but the length
octet is set to the full `strlen` and is not capped, so the claimed
invariant fails for this input. -/
theorem hostname_length_octet_cex :
    byteAt (llmnr_set_hostname (List.replicate 64 97)) 0 = 64 ∧ ¬(64 ≤ 63) := by
  constructor
  · rfl
  · decide

/-- Claim C2, amended: for every input name of length 1..63 (the documented
caller constraint), the stored HostnameLabel satisfies the invariant: the
length octet equals the name length and lies in 1..63, the name bytes follow
unchanged, and the byte after them is the terminating zero octet.  For an
over-length name the code truncates only the copied name bytes at 63, while
the length octet is set to `strlen` mod 256 and can exceed 63. -/
theorem hostname_invariant (name : List Nat)
    (h1 : 1 ≤ name.length) (h63 : name.length ≤ 63) :
    byteAt (llmnr_set_hostname name) 0 = name.length ∧
    1 ≤ byteAt (llmnr_set_hostname name) 0 ∧
    byteAt (llmnr_set_hostname name) 0 ≤ 63 ∧
    (∀ j, j < name.length →
      byteAt (llmnr_set_hostname name) (1 + j) = byteAt name j) ∧
    byteAt (llmnr_set_hostname name) (1 + name.length) = 0 := by
  refine ⟨set_hostname_byte0 name h63, ?_, ?_,
    fun j hj => set_hostname_byte_name name h63 j hj,
    set_hostname_byte_term name h63⟩
  · rw [set_hostname_byte0 name h63]; omega
  · rw [set_hostname_byte0 name h63]; omega

/-- Witness for the amended C2 theorem at the concrete name "myhost". -/
theorem hostname_invariant_witness :
    (1 ≤ myhostBytes.length ∧ myhostBytes.length ≤ 63) ∧
    byteAt (llmnr_set_hostname myhostBytes) 0 = myhostBytes.length := by
  refine ⟨by decide, ?_⟩
  exact (hostname_invariant myhostBytes (by decide) (by decide)).1

lemma and_mask_sub {a m s : Nat} (hms : m &&& s = s) (h0 : a &&& m = 0) :
    a &&& s = 0 := by
  rw [← hms, ← Nat.and_assoc, h0, Nat.zero_and]

/-- Claim C5: any datagram that is shorter than the 12-byte header, has the
QR bit set, a non-zero opcode, the TC bit set, QDCOUNT ≠ 1, ANCOUNT ≠ 0,
NSCOUNT ≠ 0, a QNAME length octet that is 0, ≥ the remaining payload length,
or > 63, or whose byte after the QNAME bytes is not the terminating zero
octet, produces no response datagram. -/
theorem invalid_query_dropped (host buf : List Nat) (len : Nat)
    (ifc : List (List Nat))
    (h : len < 12 ∨
      be16 (byteAt buf 2) (byteAt buf 3) &&& LLMNR_F_QR ≠ 0 ∨
      be16 (byteAt buf 2) (byteAt buf 3) &&& LLMNR_F_OPCODE ≠ 0 ∨
      be16 (byteAt buf 2) (byteAt buf 3) &&& LLMNR_F_TC ≠ 0 ∨
      be16 (byteAt buf 4) (byteAt buf 5) ≠ 1 ∨
      be16 (byteAt buf 6) (byteAt buf 7) ≠ 0 ∨
      be16 (byteAt buf 8) (byteAt buf 9) ≠ 0 ∨
      byteAt buf 12 = 0 ∨ len - 12 ≤ byteAt buf 12 ∨ 63 < byteAt buf 12 ∨
      byteAt buf (12 + (1 + byteAt buf 12)) ≠ 0) :
    llmnr_packet_process host buf len ifc = none := by
  cases heq : llmnr_packet_process host buf len ifc with
  | none => rfl
  | some resp =>
    exfalso
    obtain ⟨h12, hf, hqd, han, hns, hn0, hnlt, hn63, hterm, -, -, -⟩ :=
      process_some_inv heq
    rcases h with h | h | h | h | h | h | h | h | h | h | h
    · omega
    · exact h (and_mask_sub (by decide) hf)
    · exact h (and_mask_sub (by decide) hf)
    · exact h (and_mask_sub (by decide) hf)
    · exact h hqd
    · exact h han
    · exact h hns
    · exact hn0 h
    · omega
    · omega
    · exact h hterm

/-- Witness for C5 at a concrete input: the valid "MYHOST" query with the
QR bit set in its flags is dropped. -/
theorem invalid_query_dropped_witness :
    (be16 (byteAt bufQueryQR 2) (byteAt bufQueryQR 3) &&& LLMNR_F_QR ≠ 0) ∧
    llmnr_packet_process hostMyhost bufQueryQR 24 oneAddr = none := by
  refine ⟨by decide, ?_⟩
  exact invalid_query_dropped hostMyhost bufQueryQR 24 oneAddr (by decide)

/-- Claim C8: in every emitted response, the header ID bytes equal the
query's ID bytes, the 16-bit flags field is exactly `LLMNR_F_QR` (the QR bit
set and no other flag bit), QDCOUNT equals the query's QDCOUNT, and NSCOUNT
and ARCOUNT are 0. -/
theorem response_header_fields (host buf : List Nat) (len : Nat)
    (ifc : List (List Nat)) (resp : List Nat)
    (h : llmnr_packet_process host buf len ifc = some resp) :
    byteAt resp 0 = byteAt buf 0 ∧ byteAt resp 1 = byteAt buf 1 ∧
    be16 (byteAt resp 2) (byteAt resp 3) = LLMNR_F_QR ∧
    byteAt resp 4 = byteAt buf 4 ∧ byteAt resp 5 = byteAt buf 5 ∧
    be16 (byteAt resp 4) (byteAt resp 5) = be16 (byteAt buf 4) (byteAt buf 5) ∧
    be16 (byteAt resp 8) (byteAt resp 9) = 0 ∧
    be16 (byteAt resp 10) (byteAt resp 11) = 0 := by
  obtain ⟨-, -, -, -, -, -, -, -, -, -, -, hresp⟩ := process_some_inv h
  subst hresp
  exact ⟨rfl, rfl, rfl, rfl, rfl, rfl, rfl, rfl⟩

/-- Witness for C8 at the concrete "MYHOST" query. -/
theorem response_header_fields_witness :
    llmnr_packet_process hostMyhost bufQueryUpper 24 oneAddr =
      some ((llmnr_packet_process hostMyhost bufQueryUpper 24 oneAddr).getD []) ∧
    byteAt ((llmnr_packet_process hostMyhost bufQueryUpper 24 oneAddr).getD []) 0
      = byteAt bufQueryUpper 0 := by
  refine ⟨by decide, ?_⟩
  exact (response_header_fields hostMyhost bufQueryUpper 24 oneAddr
    ((llmnr_packet_process hostMyhost bufQueryUpper 24 oneAddr).getD [])
    (by decide)).1

/-- Claim C1: in every emitted response the ANCOUNT header field equals the
number of resource records the answer loop appends (one per AF_INET address
in the lookup result, which under the spec's IPv4-only Address Source is
every returned address); and for a valid matching ANY/IN query against an
interface with N addresses, a response is emitted iff N > 0, with
ANCOUNT = min N 16. -/
theorem ancount_equals_records (host buf : List Nat) (len : Nat)
    (ifc : List (List Nat)) :
    (∀ resp, llmnr_packet_process host buf len ifc = some resp →
      be16 (byteAt resp 6) (byteAt resp 7) = rrCount (addrsOf ifc)) ∧
    (validMatchingAnyQuery host buf len →
      ((llmnr_packet_process host buf len ifc).isSome ↔ 0 < ifc.length) ∧
      ∀ resp, llmnr_packet_process host buf len ifc = some resp →
        be16 (byteAt resp 6) (byteAt resp 7) = min ifc.length 16) := by
  have hle : (addrsOf ifc).length ≤ 16 := by rw [addrsOf_length]; omega
  have hbytes : ∀ resp, resp = respBytes host buf len ifc →
      be16 (byteAt resp 6) (byteAt resp 7) = (addrsOf ifc).length := by
    intro resp hresp
    subst hresp
    have h6 : byteAt (respBytes host buf len ifc) 6
        = (addrsOf ifc).length / 256 % 256 := rfl
    have h7 : byteAt (respBytes host buf len ifc) 7
        = (addrsOf ifc).length % 256 := rfl
    rw [h6, h7, be16]
    omega
  constructor
  · intro resp h
    obtain ⟨-, -, -, -, -, -, -, -, -, -, -, hresp⟩ := process_some_inv h
    rw [hbytes resp hresp, rrCount_addrsOf]
  · intro hv
    have hm := process_of_validAny hv ifc
    constructor
    · rw [hm]
      split
      · rename_i h0
        rw [addrsOf_length] at h0
        simp only [Option.isSome_none, Bool.false_eq_true, false_iff]
        omega
      · rename_i h0
        rw [addrsOf_length] at h0
        simp only [Option.isSome_some, true_iff]
        omega
    · intro resp h
      rw [hm] at h
      split at h
      · exact absurd h (by simp)
      · rename_i h0
        rw [hbytes resp (Option.some.inj h).symm, addrsOf_length]
        omega

/-- Witness for C1 at the concrete "MYHOST" query with one address. -/
theorem ancount_equals_records_witness :
    validMatchingAnyQuery hostMyhost bufQueryUpper 24 ∧
    ((llmnr_packet_process hostMyhost bufQueryUpper 24 oneAddr).isSome ↔
      0 < oneAddr.length) := by
  refine ⟨by decide, ?_⟩
  exact ((ancount_equals_records hostMyhost bufQueryUpper 24 oneAddr).2
    (by decide)).1

/-- Claim C4, counterexample: for the valid matching query with one trailing
padding byte 99 beyond QCLASS (payload length 25, question section 12 bytes),
the emitted response's bytes between the 12-byte header and the first answer
record (which starts at offset 12 + received-query-length = 25, where the
hostname label 0x06 begins) are the question section plus the padding byte,
not the question section alone. -/
theorem question_echo_cex :
    (((llmnr_packet_process hostMyhost bufQueryPadded 25 oneAddr).getD []).drop 12).take 13
        = [6, 109, 121, 104, 111, 115, 116, 0, 0, 255, 0, 1] ++ [99] ∧
    byteAt ((llmnr_packet_process hostMyhost bufQueryPadded 25 oneAddr).getD []) 25 = 6 ∧
    ([6, 109, 121, 104, 111, 115, 116, 0, 0, 255, 0, 1] ++ [99] : List Nat)
        ≠ [6, 109, 121, 104, 111, 115, 116, 0, 0, 255, 0, 1] := by
  refine ⟨by decide, by decide, by decide⟩

/-- Claim C4, amended: in every emitted response, the bytes between the
12-byte header and the first answer record are the received query section
byte for byte — QNAME+QTYPE+QCLASS plus any trailing bytes of the received
payload (equal to the question section exactly when the payload is the
minimal question encoding); the answer records follow immediately after. -/
theorem question_echo (host buf : List Nat) (len : Nat)
    (ifc : List (List Nat)) (resp : List Nat)
    (h : llmnr_packet_process host buf len ifc = some resp) :
    resp.drop 12 = (buf.drop 12).take (len - 12)
      ++ rrsFrom host (len - 12) 0 (addrsOf ifc) := by
  obtain ⟨-, -, -, -, -, -, -, -, -, -, -, hresp⟩ := process_some_inv h
  subst hresp
  rfl

/-- Witness for the amended C4 theorem at the concrete "MYHOST" query. -/
theorem question_echo_witness :
    llmnr_packet_process hostMyhost bufQueryUpper 24 oneAddr =
      some ((llmnr_packet_process hostMyhost bufQueryUpper 24 oneAddr).getD []) ∧
    ((llmnr_packet_process hostMyhost bufQueryUpper 24 oneAddr).getD []).drop 12
      = (bufQueryUpper.drop 12).take (24 - 12)
        ++ rrsFrom hostMyhost (24 - 12) 0 (addrsOf oneAddr) := by
  refine ⟨by decide, ?_⟩
  exact question_echo hostMyhost bufQueryUpper 24 oneAddr
    ((llmnr_packet_process hostMyhost bufQueryUpper 24 oneAddr).getD []) (by decide)

/-- Claim C6, counterexample: in the concrete scenario (hostname "myhost",
query QNAME `0x06 "MYHOST" 0x00`, QTYPE=ANY, QCLASS=IN, single address
192.0.2.5), the emitted answer record's NAME bytes are the stored lowercase
hostname label `0x06 "myhost" 0x00`, not the claimed `0x06 "MYHOST" 0x00`. -/
theorem concrete_scenario_cex :
    (((llmnr_packet_process hostMyhost bufQueryUpper 24 oneAddr).getD []).drop 24).take 8
        = [6, 109, 121, 104, 111, 115, 116, 0] ∧
    ([6, 109, 121, 104, 111, 115, 116, 0] : List Nat)
        ≠ [6, 77, 89, 72, 79, 83, 84, 0] := by
  refine ⟨by decide, by decide⟩

/-- Claim C6, amended: the concrete scenario produces exactly one response
datagram with echoed ID 0x1234 and QDCOUNT 1, flags = QR only, ANCOUNT=1,
the echoed question (keeping the query's uppercase spelling), and one answer
record whose NAME is the stored hostname label `0x06 "myhost" 0x00` (the
configured name's bytes, not the query's spelling), TYPE=1, CLASS=1, TTL=30,
RDLENGTH=4 and RDATA bytes 192,0,2,5. -/
theorem concrete_scenario :
    llmnr_packet_process hostMyhost bufQueryUpper 24 oneAddr =
      some ([18, 52, 128, 0, 0, 1, 0, 1, 0, 0, 0, 0] ++
        [6, 77, 89, 72, 79, 83, 84, 0, 0, 255, 0, 1] ++
        [6, 109, 121, 104, 111, 115, 116, 0] ++
        [0, 1] ++ [0, 1] ++ [0, 0, 0, 30] ++ [0, 4] ++ [192, 0, 2, 5]) := by
  decide

/-- Claim C9, failing input: a valid matching query whose payload ends one
byte after the QNAME's name bytes (len 19, name_len 6, so -1 payload bytes
remain after the position of the terminating zero octet — a truncated
question).  The `size_t` computation `query_len - name_len - 2` wraps to
2^64 - 1, the 4-byte guard passes, QTYPE/QCLASS are read from stale buffer
bytes beyond the payload, and a response IS emitted, contradicting the
claimed no-response behaviour for truncated questions. -/
theorem truncated_question_wrap_bug :
    ((19 : Int) - 12) - (byteAt bufStaleZero 12 : Int) - 2 < 4 ∧
    usub64 (usub64 (19 - 12) (byteAt bufStaleZero 12)) 2 = 18446744073709551615 ∧
    (llmnr_packet_process hostMyhost bufStaleZero 19 oneAddr).isSome = true := by
  refine ⟨by decide, by decide, by decide⟩

/-- Claim C10, failing input: two receive buffers that agree on the entire
19-byte received payload but differ in the stale bytes beyond it.  One is
answered and the other silently dropped, so validation and response
construction read (and act on) bytes beyond the first `len` bytes of the
payload: the terminating-zero check reads offset 19 = len, and after the
wrapping `query_len - name_len - 2` guard passes, QTYPE/QCLASS are read from
offsets 20..23. -/
theorem validation_reads_beyond_payload :
    bufStaleZero.take 19 = bufStaleFF.take 19 ∧
    (llmnr_packet_process hostMyhost bufStaleZero 19 oneAddr).isSome = true ∧
    llmnr_packet_process hostMyhost bufStaleFF 19 oneAddr = none := by
  refine ⟨by decide, by decide, by decide⟩

lemma lowerByte_eq_zero {x : Nat} (h : lowerByte x = 0) : x = 0 := by
  unfold lowerByte at h
  split at h <;> omega

lemma byteAt_mem {l : List Nat} {k : Nat} (hk : k < l.length) : byteAt l k ∈ l := by
  simp only [byteAt, List.getD_eq_getElem?_getD, List.getElem?_eq_getElem hk,
    Option.getD_some]
  exact List.getElem_mem hk

lemma strncasecmpEq_iff (q h2 : List Nat) :
    ∀ (n i j : Nat), (∀ k, k < n → byteAt h2 (j + k) ≠ 0) →
      (strncasecmpEq q i h2 j n = true ↔
        ∀ k, k < n → lowerByte (byteAt q (i + k)) = lowerByte (byteAt h2 (j + k))) := by
  intro n
  induction n with
  | zero => intro i j _; simp [strncasecmpEq]
  | succ m ih =>
    intro i j hnz
    simp only [strncasecmpEq]
    by_cases hne : lowerByte (byteAt q i) = lowerByte (byteAt h2 j)
    · rw [if_neg (not_not_intro hne)]
      by_cases h0 : byteAt q i = 0
      · exfalso
        have hz : byteAt h2 j = 0 := lowerByte_eq_zero (by rw [← hne, h0]; rfl)
        have hj := hnz 0 (by omega)
        rw [Nat.add_zero] at hj
        exact hj hz
      · rw [if_neg h0]
        rw [ih (i + 1) (j + 1) (fun k hk => by
          have hx := hnz (k + 1) (by omega)
          rwa [show j + (k + 1) = j + 1 + k from by omega] at hx)]
        constructor
        · intro hall k hk
          cases k with
          | zero => simpa using hne
          | succ k' =>
            have hx := hall k' (by omega)
            rwa [show i + 1 + k' = i + (k' + 1) from by omega,
              show j + 1 + k' = j + (k' + 1) from by omega] at hx
        · intro hall k hk
          have hx := hall (k + 1) (by omega)
          rwa [show i + (k + 1) = i + 1 + k from by omega,
            show j + (k + 1) = j + 1 + k from by omega] at hx
    · rw [if_pos hne]
      simp only [Bool.false_eq_true, false_iff]
      intro hall
      exact hne (by simpa using hall 0 (by omega))

lemma name_matches_length {host q : List Nat}
    (h : llmnr_name_matches host q = true) : byteAt q 0 = byteAt host 0 := by
  simp only [llmnr_name_matches] at h
  split at h
  · exact absurd h (by simp)
  · rename_i hc
    exact not_not.mp hc

/-- Claim C7: for a configured hostname of length 1..63 with no NUL bytes
and a validated query (terminating zero octet present), the Name Matcher
reports a match iff the QNAME length octet equals the stored length octet
and the name bytes compare equal under ASCII case-insensitive comparison;
and a non-matching query produces no response. -/
theorem name_matcher_correct (name buf : List Nat) (len : Nat)
    (ifc : List (List Nat))
    (h1 : 1 ≤ name.length) (h63 : name.length ≤ 63)
    (hnz : ∀ b ∈ name, b ≠ 0)
    (hterm : byteAt buf (12 + (1 + byteAt buf 12)) = 0) :
    (llmnr_name_matches (llmnr_set_hostname name) (buf.drop 12) = true ↔
      (byteAt buf 12 = name.length ∧
        ∀ j, j < name.length →
          lowerByte (byteAt buf (12 + (1 + j))) = lowerByte (byteAt name j))) ∧
    (llmnr_name_matches (llmnr_set_hostname name) (buf.drop 12) = false →
      llmnr_packet_process (llmnr_set_hostname name) buf len ifc = none) := by
  constructor
  · simp only [llmnr_name_matches, byteAt_drop, Nat.add_zero,
      set_hostname_byte0 name h63]
    by_cases hq0 : byteAt buf 12 = name.length
    · rw [if_neg (not_not_intro hq0)]
      rw [hq0] at hterm
      rw [if_neg (not_not_intro hterm)]
      rw [strncasecmpEq_iff (buf.drop 12) (llmnr_set_hostname name) name.length 1 1
        (fun k hk => by
          rw [set_hostname_byte_name name h63 k hk]
          exact hnz (byteAt name k) (byteAt_mem hk))]
      constructor
      · intro hall
        refine ⟨hq0, fun j hj => ?_⟩
        have hx := hall j hj
        rwa [byteAt_drop, set_hostname_byte_name name h63 j hj] at hx
      · rintro ⟨-, hall⟩ k hk
        rw [byteAt_drop, set_hostname_byte_name name h63 k hk]
        exact hall k hk
    · rw [if_pos hq0]
      simp only [Bool.false_eq_true, false_iff]
      intro hc
      exact hq0 hc.1
  · intro hfalse
    cases heq : llmnr_packet_process (llmnr_set_hostname name) buf len ifc with
    | none => rfl
    | some resp =>
      obtain ⟨-, -, -, -, -, -, -, -, -, hmatch, -, -⟩ := process_some_inv heq
      rw [hmatch] at hfalse
      exact absurd hfalse (by simp)

/-- Witness for C7 at the concrete name "myhost" and the "MYHOST" query. -/
theorem name_matcher_correct_witness :
    (1 ≤ myhostBytes.length ∧ myhostBytes.length ≤ 63 ∧
      (∀ b ∈ myhostBytes, b ≠ 0) ∧
      byteAt bufQueryUpper (12 + (1 + byteAt bufQueryUpper 12)) = 0) ∧
    (llmnr_name_matches (llmnr_set_hostname myhostBytes) (bufQueryUpper.drop 12) = true ↔
      (byteAt bufQueryUpper 12 = myhostBytes.length ∧
        ∀ j, j < myhostBytes.length →
          lowerByte (byteAt bufQueryUpper (12 + (1 + j)))
            = lowerByte (byteAt myhostBytes j))) := by
  refine ⟨⟨by decide, by decide, by decide, by decide⟩, ?_⟩
  exact (name_matcher_correct myhostBytes bufQueryUpper 24 oneAddr
    (by decide) (by decide) (by decide) (by decide)).1

lemma mem_addrsOf {ifc : List (List Nat)} (h4 : ∀ a ∈ ifc, a.length = 4) :
    ∀ x ∈ addrsOf ifc, x.family = AF_INET ∧ x.addr.length = 4 := by
  intro x hx
  simp only [addrsOf] at hx
  obtain ⟨a, ha, rfl⟩ := List.mem_map.mp hx
  exact ⟨rfl, h4 a (List.mem_of_mem_take ha)⟩

lemma drop_prefix_len {A : List Nat} {k : Nat} (hA : A.length = k)
    (B : List Nat) (m : Nat) : (A ++ B).drop (k + m) = B.drop m := by
  rw [← List.drop_drop, List.drop_left' hA]

lemma rrBytes_first_length (name : List Nat) (h63 : name.length ≤ 63) (q : Nat)
    {a : SockAddr} (hf : a.family = AF_INET) (h4 : a.addr.length = 4) :
    (rrBytes (llmnr_set_hostname name) q 0 a).length = name.length + 16 := by
  simp only [rrBytes, if_pos hf, if_pos rfl]
  simp [be16bytes, be32bytes, h4, List.length_take,
    set_hostname_length name h63, set_hostname_byte0 name h63]
  omega

lemma rrBytes_ptr_length (host : List Nat) (q : Nat) {i : Nat} (hi : i ≠ 0)
    {a : SockAddr} (hf : a.family = AF_INET) (h4 : a.addr.length = 4) :
    (rrBytes host q i a).length = 16 := by
  simp only [rrBytes, if_pos hf, if_neg hi]
  simp [be16bytes, be32bytes, h4]

lemma rrBytes_ptr_take (host : List Nat) (q : Nat) {i : Nat} (hi : i ≠ 0)
    {a : SockAddr} (hf : a.family = AF_INET) :
    (rrBytes host q i a).take 2 = be16bytes (0xC000 ||| (12 + q)) := by
  simp only [rrBytes, if_pos hf, if_neg hi]
  rfl

lemma rrsFrom_ptr (host : List Nat) (q : Nat) :
    ∀ (rest : List SockAddr) (j k : Nat), j ≠ 0 → k < rest.length →
      (∀ x ∈ rest, x.family = AF_INET ∧ x.addr.length = 4) →
      ((rrsFrom host q j rest).drop (k * 16)).take 2
        = be16bytes (0xC000 ||| (12 + q)) := by
  intro rest
  induction rest with
  | nil =>
    intro j k _ hk _
    simp at hk
  | cons a rest ih =>
    intro j k hj hk hmem
    obtain ⟨hf, h4⟩ := hmem a (List.mem_cons_self a rest)
    cases k with
    | zero =>
      simp only [rrsFrom, Nat.zero_mul, List.drop_zero]
      rw [List.take_append_of_le_length
        (by rw [rrBytes_ptr_length host q hj hf h4]; omega)]
      exact rrBytes_ptr_take host q hj hf
    | succ k' =>
      simp only [rrsFrom]
      rw [show (k' + 1) * 16 = 16 + k' * 16 from by omega,
        drop_prefix_len (rrBytes_ptr_length host q hj hf h4) _ _]
      exact ih (j + 1) k' (by omega) (by simpa using hk)
        (fun x hx => hmem x (List.mem_cons_of_mem a hx))

/-- Claim C3, counterexample: for the valid matching padded query (received
query section 13 bytes: the 12-byte minimal question plus one trailing byte)
and two interface addresses, the second answer record's NAME bytes — at
offsets 47, 48 of the emitted response — are 0xC0, 0x19: the 14-bit offset
field is 25 = 12 + 13 (header size + received query length), not
24 = 12 + 12 (header size + question-section length) as claimed. -/
theorem compression_pointer_cex :
    ((((llmnr_packet_process hostMyhost bufQueryPadded 25 twoAddrs).getD []).drop 47).take 2
        = [192, 25]) ∧
    be16 192 25 % 16384 = 12 + 13 ∧ (12 + 13 : Nat) ≠ 12 + 12 := by
  refine ⟨by decide, by decide, by decide⟩

/-- Claim C3, amended: in every emitted response with at least two answer
records, each record after the first has a 2-byte NAME whose top two bits
are 11 and whose 14-bit offset field equals the header size (12) plus the
received query length `len - 12` (QNAME+QTYPE+QCLASS plus any trailing
bytes; equal to 12 + question length only for a minimal question encoding).
The pointer targets the first answer record's NAME, which carries the full
hostname label. -/
theorem compression_pointer (name buf : List Nat) (len : Nat)
    (ifc : List (List Nat)) (resp : List Nat)
    (h63 : name.length ≤ 63) (hlen : len ≤ 2048) (hbuf : len ≤ buf.length)
    (h4 : ∀ a ∈ ifc, a.length = 4)
    (h : llmnr_packet_process (llmnr_set_hostname name) buf len ifc = some resp)
    (i : Nat) (hi : 1 ≤ i) (hilt : i < (addrsOf ifc).length) :
    ((resp.drop (len + (name.length + 16) + (i - 1) * 16)).take 2
        = be16bytes (0xC000 ||| (12 + (len - 12)))) ∧
    be16 (byteAt resp (len + (name.length + 16) + (i - 1) * 16))
        (byteAt resp (len + (name.length + 16) + (i - 1) * 16 + 1)) / 16384 = 3 ∧
    be16 (byteAt resp (len + (name.length + 16) + (i - 1) * 16))
        (byteAt resp (len + (name.length + 16) + (i - 1) * 16 + 1)) % 16384
      = 12 + (len - 12) := by
  obtain ⟨h12, -, -, -, -, -, -, -, -, -, -, hresp⟩ := process_some_inv h
  subst hresp
  have hmem := mem_addrsOf h4
  have hmain : ((respBytes (llmnr_set_hostname name) buf len ifc).drop
      (len + (name.length + 16) + (i - 1) * 16)).take 2
      = be16bytes (0xC000 ||| (12 + (len - 12))) := by
    rw [respBytes]
    have hA : ([byteAt buf 0, byteAt buf 1, 0x80, 0x00, byteAt buf 4, byteAt buf 5]
        ++ be16bytes (addrsOf ifc).length ++ [0, 0, 0, 0]
        ++ (buf.drop 12).take (len - 12)).length = 12 + (len - 12) := by
      simp [be16bytes, List.length_take, List.length_drop]
      omega
    rw [show len + (name.length + 16) + (i - 1) * 16
        = (12 + (len - 12)) + ((name.length + 16) + (i - 1) * 16) from by omega,
      drop_prefix_len hA _ _]
    cases cas : addrsOf ifc with
    | nil => rw [cas] at hilt; simp at hilt
    | cons a rest =>
      obtain ⟨hfa, h4a⟩ := hmem a (by rw [cas]; exact List.mem_cons_self a rest)
      simp only [rrsFrom]
      rw [drop_prefix_len (rrBytes_first_length name h63 (len - 12) hfa h4a) _ _]
      refine rrsFrom_ptr (llmnr_set_hostname name) (len - 12) rest 1 (i - 1)
        (by omega) ?_ (fun x hx => hmem x (by rw [cas]; exact List.mem_cons_of_mem a hx))
      rw [cas] at hilt
      simp only [List.length_cons] at hilt
      omega
  refine ⟨hmain, ?_, ?_⟩ <;>
  · have hb0 : byteAt (respBytes (llmnr_set_hostname name) buf len ifc)
        (len + (name.length + 16) + (i - 1) * 16)
        = (0xC000 ||| (12 + (len - 12))) / 256 % 256 := by
      rw [show len + (name.length + 16) + (i - 1) * 16
          = len + (name.length + 16) + (i - 1) * 16 + 0 from by omega, ← byteAt_drop]
      have ht : byteAt ((respBytes (llmnr_set_hostname name) buf len ifc).drop
          (len + (name.length + 16) + (i - 1) * 16)) 0
          = byteAt (((respBytes (llmnr_set_hostname name) buf len ifc).drop
            (len + (name.length + 16) + (i - 1) * 16)).take 2) 0 := by
        simp [byteAt, List.getElem?_take_of_lt]
      rw [ht, hmain]
      rfl
    have hb1 : byteAt (respBytes (llmnr_set_hostname name) buf len ifc)
        (len + (name.length + 16) + (i - 1) * 16 + 1)
        = (0xC000 ||| (12 + (len - 12))) % 256 := by
      rw [show len + (name.length + 16) + (i - 1) * 16 + 1
          = len + (name.length + 16) + (i - 1) * 16 + 1 from rfl, ← byteAt_drop]
      have ht : byteAt ((respBytes (llmnr_set_hostname name) buf len ifc).drop
          (len + (name.length + 16) + (i - 1) * 16)) 1
          = byteAt (((respBytes (llmnr_set_hostname name) buf len ifc).drop
            (len + (name.length + 16) + (i - 1) * 16)).take 2) 1 := by
        simp [byteAt, List.getElem?_take_of_lt]
      rw [ht, hmain]
      rfl
    rw [hb0, hb1]
    have hor : (0xC000 : Nat) ||| (12 + (len - 12)) = 49152 + (12 + (len - 12)) := by
      have hb : 12 + (len - 12) < 2 ^ 14 := by
        have he : (2 : Nat) ^ 14 = 16384 := by norm_num
        omega
      have hmol := Nat.mul_add_lt_is_or hb 3
      norm_num at hmol
      exact hmol.symm
    rw [hor, be16]
    omega

/-- Witness for the amended C3 theorem: the padded "myhost" query with two
addresses, second record (i = 1), pointer at response offset 47. -/
theorem compression_pointer_witness :
    (myhostBytes.length ≤ 63 ∧ (25 : Nat) ≤ 2048 ∧ 25 ≤ bufQueryPadded.length ∧
      (∀ a ∈ twoAddrs, a.length = 4) ∧ (1 : Nat) ≤ 1 ∧
      1 < (addrsOf twoAddrs).length) ∧
    (((llmnr_packet_process (llmnr_set_hostname myhostBytes) bufQueryPadded
        25 twoAddrs).getD []).drop
        (25 + (myhostBytes.length + 16) + (1 - 1) * 16)).take 2
      = be16bytes (0xC000 ||| (12 + (25 - 12))) := by
  refine ⟨⟨by decide, by decide, by decide, by decide, by decide, by decide⟩, ?_⟩
  exact (compression_pointer myhostBytes bufQueryPadded 25 twoAddrs
    ((llmnr_packet_process (llmnr_set_hostname myhostBytes) bufQueryPadded
      25 twoAddrs).getD [])
    (by decide) (by decide) (by decide) (by decide) (by decide)
    1 (by decide) (by decide)).1
